import Mathlib

/-!
Shallow embedding of the incremental syntax-highlighting engine of
`src/codetext.rs` (struct `CodeText` and its `Data`, `TextStorage` and
`EditableText` implementations), together with the small pure helpers
(`color`, the capture-name → attribute match, the inline line/column
scans of `edit`, and the adjacent-node deduplication loop of
`add_attributes`).

Buffers are modelled as lists of bytes (`List Nat`); the external
tree-sitter parser, tree and query cursor are modelled as parameters:
`parse : List Byte → Option Tree → Option Tree` stands for
`Parser::parse`, and `captures : Tree → List Byte → List Capture`
stands for `QueryCursor::captures`.  A tree-sitter `Tree` is opaque to
this program except for `Tree::edit`, which we model as recording the
`InputEdit` descriptors it has received.
-/

namespace Codetext

/-- A byte of the UTF-8 buffer. -/
abbrev Byte := Nat

/-- tree_sitter::Point — a (row, column) position. -/
structure Point where
  row : Nat
  column : Nat
deriving DecidableEq, Repr

/-- One iteration of the inline line/column scan in `CodeText::edit`:
a line-break byte (10) increments the row and resets the column,
every other byte increments the column. -/
def stepPoint (p : Point) (b : Byte) : Point :=
  if b = 10 then ⟨p.row + 1, 0⟩ else ⟨p.row, p.column + 1⟩

/-- The inline byte scan of `CodeText::edit`, folding `stepPoint`
over a byte segment starting from a seed position. -/
def scanBytes (p : Point) (bs : List Byte) : Point :=
  bs.foldl stepPoint p

/-- tree_sitter::InputEdit — the structural edit descriptor. -/
structure InputEdit where
  start_byte : Nat
  old_end_byte : Nat
  new_end_byte : Nat
  start_position : Point
  old_end_position : Point
  new_end_position : Point
deriving DecidableEq, Repr

/-- A tree-sitter parse tree.  The tree is opaque to this program
except for `Tree::edit`; we model it as an opaque identity plus the
log of structural-edit descriptors applied to it. -/
structure Tree where
  node : Nat
  edits : List InputEdit
deriving DecidableEq, Repr

/-- `Tree::edit` — records the structural edit on the tree. -/
def Tree.edit (t : Tree) (e : InputEdit) : Tree :=
  { t with edits := t.edits ++ [e] }

/-- One query capture as consumed by `add_attributes`:
`capture.node.id()`, `capture.node.byte_range()` and `capture.index`. -/
structure Capture where
  nodeId : Nat
  rangeStart : Nat
  rangeEnd : Nat
  index : Nat
deriving DecidableEq, Repr

/-- druid Color, modelled as the parsed 0xRRGGBB value. -/
abbrev Color := Nat

/-- Value of one hex digit character. -/
def hexVal (c : Char) : Option Nat :=
  if '0' ≤ c ∧ c ≤ '9' then some (c.toNat - '0'.toNat)
  else if 'a' ≤ c ∧ c ≤ 'f' then some (c.toNat - 'a'.toNat + 10)
  else if 'A' ≤ c ∧ c ≤ 'F' then some (c.toNat - 'A'.toNat + 10)
  else none

/-- druid `Color::from_hex_str`, modelled for the `#rrggbb` form — the
only form appearing in this program (druid also accepts 3-, 4- and
8-digit forms, which no call site here uses). -/
def fromHexStr (s : String) : Option Color :=
  match s.toList with
  | '#' :: ds =>
    if ds.length = 6 then
      ds.foldl
        (fun acc c =>
          match acc, hexVal c with
          | some a, some v => some (a * 16 + v)
          | _, _ => none)
        (some 0)
    else none
  | _ => none

/-- druid `TextAttribute`, restricted to the constructors this program
produces (`TextColor` and `Underline`). -/
inductive TextAttribute where
  | textColor (c : Color)
  | underline (b : Bool)
deriving DecidableEq, Repr

/-- The `color` helper of codetext.rs: a hex string becomes a
text-color attribute, falling back to underline on a parse failure. -/
def color (hex : String) : TextAttribute :=
  match fromHexStr hex with
  | some c => TextAttribute.textColor c
  | none => TextAttribute.underline true

/-- The capture-name → attribute match inside `CodeText::new`
(the `match name.as_str() { ... }` expression). -/
def styleForCapture (name : String) : TextAttribute :=
  if name = "constructor" then color "#61afef"
  else if name = "constant" then color "#56b6c2"
  else if name = "function.builtin" then color "#98c379"
  else if name = "function.method" then color "#98c379"
  else if name = "function" then color "#98c379"
  else if name = "variable" then color "#61afef"
  else if name = "property" then color "#abb2bf"
  else if name = "type" then color "#61afef"
  else if name = "constant.builtin" then color "#56b6c2"
  else if name = "number" then color "#c678dd"
  else if name = "comment" then color "#676f7d"
  else if name = "string" then color "#e5c07b"
  else if name = "escape" then color "#56b6c2"
  else if name = "punctuation.special" then color "#c678dd"
  else if name = "embedded" then color "#c678dd"
  else if name = "operator" then color "#e06c75"
  else if name = "keyword" then color "#e06c75"
  else TextAttribute.underline true

/-- The category names given a dedicated arm in the match of
`CodeText::new`. -/
def knownCategoryNames : List String :=
  ["constructor", "constant", "function.builtin", "function.method",
   "function", "variable", "property", "type", "constant.builtin",
   "number", "comment", "string", "escape", "punctuation.special",
   "embedded", "operator", "keyword"]

/-- The attrs vector built in `CodeText::new` from
`query.capture_names()`. -/
def mkAttrs (captureNames : List String) : List TextAttribute :=
  captureNames.map styleForCapture

/-- One published style span: the byte range handed to
`builder.range_attribute` together with its attribute. -/
structure StyleSpan where
  rangeStart : Nat
  rangeEnd : Nat
  attr : TextAttribute
deriving DecidableEq, Repr

/-- The deduplication loop of `add_attributes`: a capture is skipped
exactly when its node id equals `last_node_id`, the id of the
previously retained capture (initially 0). -/
def dedupLoop (lastNodeId : Nat) : List Capture → List Capture
  | [] => []
  | c :: rest =>
    if c.nodeId = lastNodeId then dedupLoop lastNodeId rest
    else c :: dedupLoop c.nodeId rest

/-- The captures retained by the `for` loop of `add_attributes`,
with `last_node_id` seeded to 0 as in the source. -/
def dedupCaptures (cs : List Capture) : List Capture :=
  dedupLoop 0 cs

/-- The spans produced by the loop body of `add_attributes`: each
retained capture contributes its node byte range with
`attrs[capture.index]`.  tree-sitter guarantees `capture.index` is an
index into `query.capture_names()`, from which `attrs` was built, so
the out-of-bounds default of `getD` is unreachable for real inputs. -/
def computeSpans (attrs : List TextAttribute) (cs : List Capture) : List StyleSpan :=
  (dedupCaptures cs).map
    (fun c => ⟨c.rangeStart, c.rangeEnd, attrs.getD c.index (TextAttribute.underline true)⟩)

/-- The state of a `CodeText` value: its buffer, attrs vector, links
and optional tree.  The parser and query handles are configuration
shared by all states and appear as function parameters instead. -/
structure CodeText where
  buffer : List Byte
  attrs : List TextAttribute
  links : List Nat
  tree : Option Tree
deriving DecidableEq, Repr

/-- `CodeText::update` — reparse: replaces the tree by
`parser.parse(&self.buffer, self.tree.as_ref())`. -/
def CodeText.update (s : CodeText)
    (parse : List Byte → Option Tree → Option Tree) : CodeText :=
  { s with tree := parse s.buffer s.tree }

/-- `impl Data for CodeText`: `same` compares the buffers. -/
def CodeText.same (a b : CodeText) : Bool :=
  a.buffer == b.buffer

/-- `TextStorage::add_attributes` for `CodeText`: a read-only call
(`&self`) that computes the style spans from the current tree and
buffer (no spans when no tree is present) and leaves the state as it
was.  The returned pair is (spans handed to the layout builder,
state after the call). -/
def CodeText.add_attributes (s : CodeText)
    (captures : Tree → List Byte → List Capture) : List StyleSpan × CodeText :=
  (match s.tree with
   | some t => computeSpans s.attrs (captures t s.buffer)
   | none => [], s)

/-- Outcome of `CodeText::edit`, which returns no value in the source:
either the call runs to completion, or it panics (Rust `panic!` from
an out-of-bounds byte index or from `String::replace_range`).  Both
constructors carry the state at that moment, so that mutations
performed before a panic are observable. -/
inductive EditResult where
  | panicked (s : CodeText)
  | ok (s : CodeText)
deriving DecidableEq, Repr

/-- The state carried by an edit outcome. -/
def EditResult.stateOf : EditResult → CodeText
  | .panicked s => s
  | .ok s => s

/-- Whether the edit ran to completion. -/
def EditResult.isOk : EditResult → Bool
  | .panicked _ => false
  | .ok _ => true

/-- Rust `str::is_char_boundary` on the byte list model: true at 0, at
the length, and at any byte that is not a UTF-8 continuation byte. -/
def isCharBoundary (bs : List Byte) (i : Nat) : Bool :=
  i == 0 || i == bs.length ||
    (match bs.get? i with
     | some b => decide (b < 128) || decide (192 ≤ b)
     | none => false)

/-- The validity condition of `String::replace_range` (reached through
druid's `EditableText::edit` for `String`): the range must be ordered,
within bounds, and on char boundaries — otherwise the call panics. -/
def replaceRangeValid (bs : List Byte) (start stop : Nat) : Bool :=
  decide (start ≤ stop) && decide (stop ≤ bs.length) &&
    isCharBoundary bs start && isCharBoundary bs stop

/-- The tail of `CodeText::edit`: `self.buffer.edit(range, new)`
(which panics on an invalid range, leaving the buffer unchanged)
followed by `self.update()`. -/
def spliceAndReparse (parse : List Byte → Option Tree → Option Tree)
    (s : CodeText) (start stop : Nat) (new : List Byte) : EditResult :=
  if replaceRangeValid s.buffer start stop then
    .ok (CodeText.update { s with buffer := s.buffer.take start ++ new ++ s.buffer.drop stop } parse)
  else
    .panicked s

/-- `EditableText::edit` for `CodeText`.  When a tree is present, the
inline scans compute the three positions from the pre-edit buffer —
seeded at row 10, column 10 as in the source — indexing `buffer[i]`
(a panic when the index reaches the buffer length), then `Tree::edit`
receives the descriptor; afterwards the buffer is spliced and the
document reparsed. -/
def CodeText.edit (parse : List Byte → Option Tree → Option Tree)
    (s : CodeText) (start stop : Nat) (new : List Byte) : EditResult :=
  match s.tree with
  | none => spliceAndReparse parse s start stop new
  | some t =>
    if s.buffer.length < start then .panicked s
    else if start < stop ∧ s.buffer.length < stop then .panicked s
    else
      let startPos := scanBytes ⟨10, 10⟩ (s.buffer.take start)
      let oldEndPos := scanBytes startPos ((s.buffer.take stop).drop start)
      let newEndPos := scanBytes startPos new
      spliceAndReparse parse
        { s with tree := some (t.edit
            { start_byte := start
              old_end_byte := stop
              new_end_byte := start + new.length
              start_position := startPos
              old_end_position := oldEndPos
              new_end_position := newEndPos }) }
        start stop new

/-! ### Shared helper lemmas -/

/-- A trivially cloneable parse behavior for concrete evaluations:
the parser returns the tree it was handed. -/
def parseKeep : List Byte → Option Tree → Option Tree :=
  fun _ t => t

/-- A parse behavior that fails on every input. -/
def parseFail : List Byte → Option Tree → Option Tree :=
  fun _ _ => none

/-- The bytes of "a\nb". -/
def bufAB : List Byte := [97, 10, 98]

/-- A sample tree with an empty structural-edit log. -/
def sampleTree : Tree := ⟨1, []⟩

theorem dedupLoop_sublist (last : Nat) (cs : List Capture) :
    List.Sublist (dedupLoop last cs) cs := by
  induction cs generalizing last with
  | nil => simp [dedupLoop]
  | cons c rest ih =>
    simp only [dedupLoop]
    split
    · exact (ih last).trans (List.sublist_cons_self c rest)
    · exact List.Sublist.cons₂ c (ih c.nodeId)

theorem dedupLoop_chain (last : Nat) (cs : List Capture) :
    List.Chain' (fun a b => a.nodeId ≠ b.nodeId) (dedupLoop last cs) ∧
      (∀ a, (dedupLoop last cs).head? = some a → a.nodeId ≠ last) := by
  induction cs generalizing last with
  | nil => simp [dedupLoop]
  | cons c rest ih =>
    simp only [dedupLoop]
    split
    · rename_i heq
      subst heq
      exact ih c.nodeId
    · rename_i hne
      constructor
      · rw [List.chain'_cons']
        refine ⟨?_, (ih c.nodeId).1⟩
        intro y hy
        exact Ne.symm ((ih c.nodeId).2 y hy)
      · intro a ha
        simp only [List.head?_cons, Option.some.injEq] at ha
        subst ha
        exact hne

/-- On a valid range, `CodeText::edit` runs to completion: the tree
(when present) receives the descriptor computed from the pre-edit
buffer, the buffer is spliced, and the spliced buffer is reparsed with
the edited tree as the previous tree. -/
theorem edit_valid_eq (parse : List Byte → Option Tree → Option Tree)
    (s : CodeText) (start stop : Nat) (new : List Byte)
    (hv : replaceRangeValid s.buffer start stop = true) :
    CodeText.edit parse s start stop new =
      .ok (CodeText.update
        { s with
          tree := s.tree.map (fun t => t.edit
            { start_byte := start
              old_end_byte := stop
              new_end_byte := start + new.length
              start_position := scanBytes ⟨10, 10⟩ (s.buffer.take start)
              old_end_position :=
                scanBytes (scanBytes ⟨10, 10⟩ (s.buffer.take start))
                  ((s.buffer.take stop).drop start)
              new_end_position :=
                scanBytes (scanBytes ⟨10, 10⟩ (s.buffer.take start)) new })
          buffer := s.buffer.take start ++ new ++ s.buffer.drop stop }
        parse) := by
  have hb : start ≤ stop ∧ stop ≤ s.buffer.length := by
    simp only [replaceRangeValid, Bool.and_eq_true, decide_eq_true_eq] at hv
    exact ⟨hv.1.1.1, hv.1.1.2⟩
  cases htree : s.tree with
  | none =>
    simp [CodeText.edit, htree, spliceAndReparse, hv]
  | some t =>
    have h1 : ¬ s.buffer.length < start := by omega
    have h2 : ¬ (start < stop ∧ s.buffer.length < stop) := by omega
    simp [CodeText.edit, htree, h1, h2, spliceAndReparse, hv]

/-- On an invalid range, `CodeText::edit` panics and the buffer is
unchanged at the moment of the panic. -/
theorem edit_invalid (parse : List Byte → Option Tree → Option Tree)
    (s : CodeText) (start stop : Nat) (new : List Byte)
    (hv : replaceRangeValid s.buffer start stop = false) :
    (CodeText.edit parse s start stop new).isOk = false ∧
      (CodeText.edit parse s start stop new).stateOf.buffer = s.buffer := by
  cases htree : s.tree with
  | none =>
    simp [CodeText.edit, htree, spliceAndReparse, hv, EditResult.isOk, EditResult.stateOf]
  | some t =>
    by_cases h1 : s.buffer.length < start
    · simp [CodeText.edit, htree, h1, EditResult.isOk, EditResult.stateOf]
    · by_cases h2 : start < stop ∧ s.buffer.length < stop
      · simp [CodeText.edit, htree, h1, h2, EditResult.isOk, EditResult.stateOf]
      · simp [CodeText.edit, htree, h1, h2, spliceAndReparse, hv,
          EditResult.isOk, EditResult.stateOf]

/-! ### Sample data for concrete evaluations -/

/-- A capture stream used for concrete witness evaluations, already
sorted by start offset. -/
def sampleCaptures : Tree → List Byte → List Capture :=
  fun _ _ => [⟨1, 0, 1, 0⟩, ⟨2, 5, 6, 0⟩]

/-- A capture stream whose second capture starts before the first, as
the query evaluator may produce across unrelated pattern branches. -/
def unsortedCaptures : Tree → List Byte → List Capture :=
  fun _ _ => [⟨1, 5, 6, 0⟩, ⟨2, 0, 1, 0⟩]

/-! ### Claims -/

/-- Claim C1: the spec asks for a zero-based scan with (line, column) =
(0, 0) at offset 0, but `CodeText::edit` seeds its inline scan with
`line = 10; col = 10`, so the structural-edit descriptor for an edit
at offset 0 of the buffer "a\nb" carries start position (10, 10)
instead of (0, 0). -/
theorem c1_scan_seeded_at_ten :
    CodeText.edit parseKeep ⟨bufAB, [], [], some sampleTree⟩ 0 0 [] =
      .ok ⟨bufAB, [], [],
        some ⟨1, [⟨0, 0, 0, ⟨10, 10⟩, ⟨10, 10⟩, ⟨10, 10⟩⟩]⟩⟩ ∧
      (⟨10, 10⟩ : Point) ≠ (⟨0, 0⟩ : Point) := by
  exact ⟨rfl, by decide⟩

/-- Claim C2, counterexample: on the capture stream with node ids
1, 2, 1 the loop of `add_attributes` retains all three captures, so
two retained captures share node identity — deduplication is not
global. -/
theorem c2_counterexample :
    (dedupCaptures [⟨1, 0, 3, 0⟩, ⟨2, 0, 3, 0⟩, ⟨1, 0, 3, 0⟩]).map Capture.nodeId
        = [1, 2, 1] ∧
      ¬ List.Pairwise (fun a b => a.nodeId ≠ b.nodeId)
          (dedupCaptures [⟨1, 0, 3, 0⟩, ⟨2, 0, 3, 0⟩, ⟨1, 0, 3, 0⟩]) := by
  exact ⟨rfl, by decide⟩

/-- Claim C2, amended: the deduplication loop of `add_attributes`
discards a capture only when its node id equals that of the
immediately preceding retained capture, so after any capture
computation no two ADJACENT retained captures share node identity;
equal node ids may still recur non-adjacently. -/
theorem c2_adjacent_dedup (cs : List Capture) :
    List.Chain' (fun a b => a.nodeId ≠ b.nodeId) (dedupCaptures cs) :=
  (dedupLoop_chain 0 cs).1

/-- Claim C3, counterexample: an edit of "a\nb" with range.start = 2 >
range.end = 1 does not fail with an `InvalidRange` error — no such
error exists in the code — it panics in `String::replace_range`, and
by then `Tree::edit` has already applied the bogus structural edit to
the tree, so the state is not left as it was. -/
theorem c3_counterexample :
    CodeText.edit parseKeep ⟨bufAB, [], [], some sampleTree⟩ 2 1 [] =
      .panicked ⟨bufAB, [], [],
        some ⟨1, [⟨2, 1, 2, ⟨11, 0⟩, ⟨11, 0⟩, ⟨11, 0⟩⟩]⟩⟩ ∧
      (some (⟨1, [⟨2, 1, 2, ⟨11, 0⟩, ⟨11, 0⟩, ⟨11, 0⟩⟩]⟩ : Tree) : Option Tree)
        ≠ some sampleTree := by
  exact ⟨rfl, by decide⟩

/-- Claim C3, amended: an edit whose range violates bounds, ordering
or code-point boundaries panics instead of returning an error, and the
buffer is unchanged at the moment of the panic (the tree, however, may
already have received the structural edit). -/
theorem c3_invalid_edit_panics (parse : List Byte → Option Tree → Option Tree)
    (s : CodeText) (start stop : Nat) (new : List Byte)
    (hv : replaceRangeValid s.buffer start stop = false) :
    (CodeText.edit parse s start stop new).isOk = false ∧
      (CodeText.edit parse s start stop new).stateOf.buffer = s.buffer :=
  edit_invalid parse s start stop new hv

/-- Witness for the amended claim C3 at the concrete invalid range
(2, 1) of "a\nb". -/
theorem c3_invalid_edit_panics_witness :
    replaceRangeValid bufAB 2 1 = false ∧
      ((CodeText.edit parseKeep ⟨bufAB, [], [], some sampleTree⟩ 2 1 []).isOk = false ∧
        (CodeText.edit parseKeep ⟨bufAB, [], [], some sampleTree⟩ 2 1 []).stateOf.buffer
          = bufAB) :=
  ⟨by decide,
    c3_invalid_edit_panics parseKeep ⟨bufAB, [], [], some sampleTree⟩ 2 1 [] (by decide)⟩

/-- Claim C4: on a valid range the buffer after `edit` is the
mathematical splice of the prior buffer — the bytes before
range.start, the replacement, and the bytes from range.end onward. -/
theorem c4_buffer_splice (parse : List Byte → Option Tree → Option Tree)
    (s : CodeText) (start stop : Nat) (new : List Byte)
    (hv : replaceRangeValid s.buffer start stop = true) :
    (CodeText.edit parse s start stop new).isOk = true ∧
      (CodeText.edit parse s start stop new).stateOf.buffer =
        s.buffer.take start ++ new ++ s.buffer.drop stop := by
  rw [edit_valid_eq parse s start stop new hv]
  exact ⟨rfl, rfl⟩

/-- Witness for claim C4: inserting byte 99 ("c") at range (2, 2) of
"a\nb" yields the splice "a\nbc". -/
theorem c4_buffer_splice_witness :
    replaceRangeValid bufAB 2 2 = true ∧
      ((CodeText.edit parseKeep ⟨bufAB, [], [], some sampleTree⟩ 2 2 [99]).isOk = true ∧
        (CodeText.edit parseKeep ⟨bufAB, [], [], some sampleTree⟩ 2 2 [99]).stateOf.buffer =
          bufAB.take 2 ++ [99] ++ bufAB.drop 2) :=
  ⟨by decide,
    c4_buffer_splice parseKeep ⟨bufAB, [], [], some sampleTree⟩ 2 2 [99] (by decide)⟩

/-- Claim C5, counterexample: `add_attributes` emits spans in capture
stream order without sorting, so a capture stream whose second capture
starts before the first yields a span list that is not sorted by start
offset. -/
theorem c5_counterexample :
    ¬ List.Pairwise (fun a b => a.rangeStart ≤ b.rangeStart)
      ((CodeText.add_attributes
        ⟨bufAB, [TextAttribute.underline true], [], some sampleTree⟩
        unsortedCaptures).1) := by
  decide

/-- Claim C5, amended: the accessor returns the spans in the order the
captures were emitted, with no sorting step; the span list is sorted
by start offset whenever the capture stream itself is. -/
theorem c5_spans_follow_capture_order (s : CodeText)
    (captures : Tree → List Byte → List Capture)
    (h : ∀ t, s.tree = some t →
      List.Pairwise (fun a b => a.rangeStart ≤ b.rangeStart) (captures t s.buffer)) :
    List.Pairwise (fun a b => a.rangeStart ≤ b.rangeStart)
      ((s.add_attributes captures).1) := by
  cases htree : s.tree with
  | none => simp [CodeText.add_attributes, htree]
  | some t =>
    simp only [CodeText.add_attributes, htree, computeSpans, List.pairwise_map]
    exact List.Pairwise.sublist (dedupLoop_sublist 0 _) (h t htree)

/-- Witness for the amended claim C5 on a sorted capture stream. -/
theorem c5_spans_follow_capture_order_witness :
    (∀ t, (⟨bufAB, [], [], some sampleTree⟩ : CodeText).tree = some t →
      List.Pairwise (fun a b => a.rangeStart ≤ b.rangeStart) (sampleCaptures t bufAB)) ∧
      List.Pairwise (fun a b => a.rangeStart ≤ b.rangeStart)
        ((CodeText.add_attributes ⟨bufAB, [], [], some sampleTree⟩ sampleCaptures).1) :=
  ⟨fun t _ => by simp only [sampleCaptures]; decide,
    c5_spans_follow_capture_order ⟨bufAB, [], [], some sampleTree⟩ sampleCaptures
      (fun t _ => by simp only [sampleCaptures]; decide)⟩

/-- Claim C6: when the reparse returns no tree, `update` leaves the
engine in the no-tree state and `add_attributes` produces no spans, so
highlighting is suppressed and no stale tree reaches the query
stage. -/
theorem c6_reparse_fallback (parse : List Byte → Option Tree → Option Tree)
    (captures : Tree → List Byte → List Capture) (s : CodeText)
    (h : parse s.buffer s.tree = none) :
    (s.update parse).tree = none ∧ ((s.update parse).add_attributes captures).1 = [] := by
  have ht : (s.update parse).tree = none := by simp [CodeText.update, h]
  exact ⟨ht, by simp [CodeText.add_attributes, ht]⟩

/-- Witness for claim C6 with a parse behavior that fails on the
sample buffer. -/
theorem c6_reparse_fallback_witness :
    parseFail bufAB (some sampleTree) = none ∧
      ((CodeText.update ⟨bufAB, [], [], some sampleTree⟩ parseFail).tree = none ∧
        ((CodeText.update ⟨bufAB, [], [], some sampleTree⟩ parseFail).add_attributes
          sampleCaptures).1 = []) :=
  ⟨rfl, c6_reparse_fallback parseFail sampleCaptures ⟨bufAB, [], [], some sampleTree⟩ rfl⟩

/-- Claim C7: on a valid edit, the structural edit descriptor — start
byte = range.start, old end byte = range.end, new end byte =
range.start + replacement length, with positions scanned from the
pre-edit buffer — is applied to the current tree (a no-op when no tree
exists, via `Option.map`), then the buffer is spliced, then the
spliced buffer is reparsed with the edited tree. -/
theorem c7_edit_order (parse : List Byte → Option Tree → Option Tree)
    (s : CodeText) (start stop : Nat) (new : List Byte)
    (hv : replaceRangeValid s.buffer start stop = true) :
    CodeText.edit parse s start stop new =
      .ok (CodeText.update
        { s with
          tree := s.tree.map (fun t => t.edit
            { start_byte := start
              old_end_byte := stop
              new_end_byte := start + new.length
              start_position := scanBytes ⟨10, 10⟩ (s.buffer.take start)
              old_end_position :=
                scanBytes (scanBytes ⟨10, 10⟩ (s.buffer.take start))
                  ((s.buffer.take stop).drop start)
              new_end_position :=
                scanBytes (scanBytes ⟨10, 10⟩ (s.buffer.take start)) new })
          buffer := s.buffer.take start ++ new ++ s.buffer.drop stop }
        parse) :=
  edit_valid_eq parse s start stop new hv

/-- Witness for claim C7 at the concrete insertion of byte 99 ("c")
at range (2, 2) of "a\nb". -/
theorem c7_edit_order_witness :
    replaceRangeValid bufAB 2 2 = true ∧
      CodeText.edit parseKeep ⟨bufAB, [], [], some sampleTree⟩ 2 2 [99] =
        .ok (CodeText.update
          { buffer := bufAB.take 2 ++ [99] ++ bufAB.drop 2
            attrs := []
            links := []
            tree := (some sampleTree).map (fun t => t.edit
              { start_byte := 2
                old_end_byte := 2
                new_end_byte := 2 + [99].length
                start_position := scanBytes ⟨10, 10⟩ (bufAB.take 2)
                old_end_position :=
                  scanBytes (scanBytes ⟨10, 10⟩ (bufAB.take 2)) ((bufAB.take 2).drop 2)
                new_end_position :=
                  scanBytes (scanBytes ⟨10, 10⟩ (bufAB.take 2)) [99] }) }
          parseKeep) :=
  ⟨by decide,
    c7_edit_order parseKeep ⟨bufAB, [], [], some sampleTree⟩ 2 2 [99] (by decide)⟩

/-- Claim C8: style resolution is a total function; a capture-category
name without a dedicated arm in the match of `CodeText::new` resolves
to the underline fallback attribute, never an error and never a
dropped capture. -/
theorem c8_unknown_category_fallback (name : String)
    (h : name ∉ knownCategoryNames) :
    styleForCapture name = TextAttribute.underline true := by
  simp only [knownCategoryNames, List.mem_cons, List.not_mem_nil, or_false, not_or] at h
  obtain ⟨h1, h2, h3, h4, h5, h6, h7, h8, h9, h10, h11, h12, h13, h14, h15, h16, h17⟩ := h
  simp [styleForCapture, h1, h2, h3, h4, h5, h6, h7, h8, h9, h10,
    h11, h12, h13, h14, h15, h16, h17]

/-- Witness for claim C8 at a category name outside the fixed
mapping. -/
theorem c8_unknown_category_fallback_witness :
    "bogus" ∉ knownCategoryNames ∧
      styleForCapture "bogus" = TextAttribute.underline true :=
  ⟨by decide, c8_unknown_category_fallback "bogus" (by decide)⟩

/-- Claim C9: `add_attributes` is a read-only accessor — it leaves the
state exactly as it was — and computing the span list twice without an
intervening edit yields identical results. -/
theorem c9_spans_deterministic (captures : Tree → List Byte → List Capture)
    (s : CodeText) :
    (s.add_attributes captures).2 = s ∧
      ((s.add_attributes captures).2.add_attributes captures).1 =
        (s.add_attributes captures).1 :=
  ⟨rfl, rfl⟩

/-- Claim C10: the `Data::same` implementation of `CodeText` compares
only the buffers: two states are `same` exactly when their buffers are
equal, whatever their trees, attrs or links. -/
theorem c10_same_iff_buffer_eq (a b : CodeText) :
    CodeText.same a b = true ↔ a.buffer = b.buffer := by
  simp [CodeText.same]

end Codetext
